import Mathlib

/-!
Shallow embedding of the cost-constrained MCTS statistics of the mamcts
repository (`src/mcts/statistics/uct_statistic.h`,
`src/mcts/cost_constrained/cost_constrained_statistic.h`,
`src/test/hypothesis/hypothesis_crossing_state.h`).

Modelling conventions:
* C++ `double` values are modelled as `ℚ`; the transcendental
  sub-expressions `sqrt(log x / y)` appearing in the exploration term and
  in the action filter are abstracted as an oracle argument
  `sq : Nat → Nat → ℚ` (the value the machine computes for
  `sqrt(log x / y)`); for the arguments used by the concrete witnesses
  (`x = y = 1`) the machine value is exactly `0`, so the oracle can be
  instantiated exactly.
* `std::map<ActionIdx, UcbPair>` is an association list sorted by key,
  as maintained by the ordered insertion of `updatePair`.
* `std::map::at` throws on a missing key; we model accesses through a
  defaulted lookup `atD` and state theorems only under the membership
  hypotheses that make every lookup in the code succeed.
* `std::numeric_limits<double>::max()` is the exact rational `dblMax`.
  An exploration term that the code turns into `DBL_MAX` via its
  `isnan` guard (visit count `0`, or total count `0`) is modelled by the
  explicit `dblMax` branch.
* The process-wide `std::mt19937 RandomGenerator::random_generator_` is
  modelled by passing the uniform `[0,1)` draw consumed by
  `solve_LP_and_sample` explicitly as a `sample` argument; consecutive
  calls consume consecutive draws of the shared stream.
-/

namespace Mamcts

/-- One per-action entry of `UctStatistic::UcbStatistics`
(`uct_statistic.h`, `UcbPair`): visit count and running mean value. -/
structure UcbPair where
  action_count_ : Nat
  action_value_ : ℚ
  deriving DecidableEq

/-- Embedding of `std::map<ActionIdx, UcbPair>`: an association list kept
sorted by key. -/
abbrev UcbStatistics := List (Nat × UcbPair)

/-- Defaulted lookup modelling `map.at(a)`; theorems are stated under
hypotheses making the key present, where the default is never used. -/
def atD (m : UcbStatistics) (a : Nat) : UcbPair :=
  match m with
  | [] => ⟨0, 0⟩
  | (k, p) :: rest => if k = a then p else atD rest a

/-- Sum of the per-action visit counts of a statistics map. -/
def sumCounts (m : UcbStatistics) : Nat :=
  (m.map (fun x => x.2.action_count_)).sum

/-- Exact value of `std::numeric_limits<double>::max()`. -/
def dblMax : ℚ := (2 ^ 53 - 1) * 2 ^ 971

/-- Insert-or-update on the sorted association list, modelling
`std::map::operator[]` (which default-constructs a missing entry)
followed by a mutation of the entry. -/
def updatePair (m : UcbStatistics) (a : Nat) (f : UcbPair → UcbPair) : UcbStatistics :=
  match m with
  | [] => [(a, f ⟨0, 0⟩)]
  | (k, p) :: rest =>
    if a = k then (k, f p) :: rest
    else if a < k then (a, f ⟨0, 0⟩) :: (k, p) :: rest
    else (k, p) :: updatePair rest a f

/-- Embedding of the state of `UctStatistic` (`uct_statistic.h`): running
value, latest backpropagated return, per-action statistics, visit total
and the bound/discount parameters. -/
structure UctStatistic where
  value_ : ℚ
  latest_return_ : ℚ
  ucb_statistics_ : UcbStatistics
  total_node_visits_ : Nat
  upper_bound : ℚ
  lower_bound : ℚ
  k_discount_factor : ℚ
  deriving DecidableEq

/-- Embedding of `UctStatistic::get_normalized_ucb_value`. -/
def UctStatistic.get_normalized_ucb_value (s : UctStatistic) (action : Nat) : ℚ :=
  ((atD s.ucb_statistics_ action).action_value_ - s.lower_bound) /
    (s.upper_bound - s.lower_bound)

/-- Embedding of `UctStatistic::update_from_heuristic_from_backpropagated`:
sets `value_` and `latest_return_` and increments `total_node_visits_`
without touching any per-action count. -/
def UctStatistic.update_from_heuristic_from_backpropagated
    (s : UctStatistic) (backpropagated : ℚ) : UctStatistic :=
  { s with value_ := backpropagated, latest_return_ := backpropagated,
           total_node_visits_ := s.total_node_visits_ + 1 }

/-- Embedding of `UctStatistic::set_heuristic_estimate_from_backpropagated`. -/
def UctStatistic.set_heuristic_estimate_from_backpropagated
    (s : UctStatistic) (backpropagated : ℚ) : UctStatistic :=
  { s with value_ := backpropagated }

/-- Embedding of `UctStatistic::update_statistics_from_backpropagated`.
The fields `collected_reward_` (action taken at this node and immediate
reward collected on that edge) are passed as explicit arguments, since
the driver writes them into the node before backpropagation. -/
def UctStatistic.update_statistics_from_backpropagated (s : UctStatistic)
    (collected_action : Nat) (collected_immediate : ℚ)
    (backpropagated : ℚ) : UctStatistic :=
  let latest_return := collected_immediate + s.k_discount_factor * backpropagated
  let m := updatePair s.ucb_statistics_ collected_action (fun p =>
    { action_count_ := p.action_count_ + 1,
      action_value_ := p.action_value_ +
        (latest_return - p.action_value_) / ((p.action_count_ : ℚ) + 1) })
  let total := s.total_node_visits_ + 1
  { s with latest_return_ := latest_return,
           ucb_statistics_ := m,
           total_node_visits_ := total,
           value_ := s.value_ + (latest_return - s.value_) / (total : ℚ) }

/-- Iteration loop of `UctStatistic::get_best_action`: keep the running
best key and value, moving only on a strictly greater value. -/
def getBestLoop : Nat × ℚ → List (Nat × UcbPair) → Nat × ℚ
  | bt, [] => bt
  | bt, (a, p) :: rest =>
    if p.action_value_ > bt.2 then getBestLoop (a, p.action_value_) rest
    else getBestLoop bt rest

/-- Embedding of `UctStatistic::get_best_action`: dereferences
`ucb_statistics_.begin()`, which is undefined behaviour on an empty map;
the embedding returns `none` there.  The loop runs over the whole map
starting from the first entry. -/
def UctStatistic.get_best_action (s : UctStatistic) : Option Nat :=
  match s.ucb_statistics_ with
  | [] => none
  | (k0, p0) :: rest => some (getBestLoop (k0, p0.action_value_) ((k0, p0) :: rest)).1

/-- Parameters of `cost_constrained_statistic` used by the lambda adapter
(`MctsParameters::cost_constrained_statistic`). -/
structure CostConstrainedStatisticParameters where
  LAMBDA : ℚ
  GRADIENT_UPDATE_STEP : ℚ
  COST_CONSTRAINT : ℚ
  TAU_GRADIENT_CLIP : ℚ
  deriving DecidableEq

/-- Slice of `MctsParameters` consumed by
`NodeStatistic<CostConstrainedStatistic>::update_statistic_parameters`. -/
structure MctsParameters where
  DISCOUNT_FACTOR : ℚ
  cost_constrained_statistic : CostConstrainedStatisticParameters
  deriving DecidableEq

/-- Embedding of the state of `CostConstrainedStatistic`
(`cost_constrained_statistic.h`): the two `UctStatistic` members, the
not-yet-expanded actions, the per-action mean immediate costs and the
configuration scalars. -/
structure CostConstrainedStatistic where
  reward_statistic_ : UctStatistic
  cost_statistic_ : UctStatistic
  unexpanded_actions_ : List Nat
  mean_step_costs_ : List (Nat × ℚ)
  lambda : ℚ
  kappa : ℚ
  action_filter_factor : ℚ
  cost_constraint : ℚ
  deriving DecidableEq

/-- Embedding of `CostConstrainedStatistic::policy_is_ready`. -/
def CostConstrainedStatistic.policy_is_ready (s : CostConstrainedStatistic) : Bool :=
  s.unexpanded_actions_.isEmpty

/-- Embedding of `CostConstrainedStatistic::calculate_ucb_values`.  The
oracle `sq x y` stands for the machine value of `sqrt(log x / y)`.  The
`isnan` guard of the source (triggered when the action count or the
total visit count is `0`, where the term is NaN or infinite) is modelled
by the explicit `dblMax` branch. -/
def CostConstrainedStatistic.calculate_ucb_values (s : CostConstrainedStatistic)
    (kappa_local : ℚ) (sq : Nat → Nat → ℚ) : List ℚ :=
  (List.range s.reward_statistic_.ucb_statistics_.length).map (fun idx =>
    let cost_value_normalized := s.cost_statistic_.get_normalized_ucb_value idx
    let reward_value_normalized := s.reward_statistic_.get_normalized_ucb_value idx
    let n := (atD s.reward_statistic_.ucb_statistics_ idx).action_count_
    let total := s.reward_statistic_.total_node_visits_
    let exploration_term :=
      if n = 0 ∨ total = 0 then dblMax else kappa_local * sq total n
    reward_value_normalized - s.lambda * cost_value_normalized + exploration_term)

/-- Index of the first maximal element of a value vector, modelling
`std::distance(values.begin(), std::max_element(values.begin(), values.end()))`
(`std::max_element` keeps the first maximum). -/
def maxElementIdx (values : List ℚ) : Nat :=
  (List.range values.length).foldl (fun best i =>
    if values.getD i 0 > values.getD best 0 then i else best) 0

/-- Embedding of `CostConstrainedStatistic::filter_feasible_actions`:
keep every action whose ucb value is within
`filter_factor * (sqrt(log n_a / n_a) + sqrt(log n_max / n_max))`
of the maximum, an action count of `0` contributing `DBL_MAX`. -/
def CostConstrainedStatistic.filter_feasible_actions (s : CostConstrainedStatistic)
    (values : List ℚ) (action_filter_factor_local : ℚ) (sq : Nat → Nat → ℚ) : List Nat :=
  let maximizing_action := maxElementIdx values
  let max_val := values.getD maximizing_action 0
  let cnt_max := (atD s.reward_statistic_.ucb_statistics_ maximizing_action).action_count_
  let node_counts_maximizing := if cnt_max = 0 then dblMax else sq cnt_max cnt_max
  (List.range values.length).filter (fun action_idx =>
    let value_difference := |values.getD action_idx 0 - max_val|
    let cnt := (atD s.reward_statistic_.ucb_statistics_ action_idx).action_count_
    let node_count_relations :=
      if cnt = 0 then dblMax else sq cnt cnt + node_counts_maximizing
    decide (value_difference ≤ action_filter_factor_local * node_count_relations))

/-- Cost value stored for an action, modelling
`cost_statistic_.ucb_statistics_.at(a).action_value_` (the local alias
`cost_stats` of `solve_LP_and_sample`). -/
def CostConstrainedStatistic.costValue (s : CostConstrainedStatistic) (a : Nat) : ℚ :=
  (atD s.cost_statistic_.ucb_statistics_ a).action_value_

/-- Loop of `CostConstrainedStatistic::solve_LP_and_sample` locating the
feasible actions of maximal and minimal estimated cost; each of the two
strict comparisons is followed by `continue` in the source. -/
def findMaxMinCost (cost : Nat → ℚ) : Nat × Nat → List Nat → Nat × Nat
  | mami, [] => mami
  | mami, a :: rest =>
    if cost a > cost mami.1 then findMaxMinCost cost (a, mami.2) rest
    else if cost a < cost mami.2 then findMaxMinCost cost (mami.1, a) rest
    else findMaxMinCost cost mami rest

/-- Embedding of `CostConstrainedStatistic::solve_LP_and_sample`.  The
returned policy is the total function that is `0` outside the support
built by the source (the source materialises it as a map over all keys
of the cost statistics).  `feasible_actions.at(0)` throws on an empty
vector; the embedding returns `none` there.  `sample` is the uniform
`[0,1)` draw taken from the process-wide generator. -/
def CostConstrainedStatistic.solve_LP_and_sample (s : CostConstrainedStatistic)
    (sample : ℚ) (feasible_actions : List Nat) : Option (Nat × (Nat → ℚ)) :=
  match feasible_actions with
  | [] => none
  | a0 :: _ =>
    let cost := s.costValue
    let mami := findMaxMinCost cost (a0, a0) feasible_actions
    let maximizing_action := mami.1
    let minimizing_action := mami.2
    if minimizing_action = maximizing_action then
      some (minimizing_action, fun a => if a = minimizing_action then 1 else 0)
    else
      let max_val := cost maximizing_action
      let min_val := cost minimizing_action
      if s.cost_constraint ≤ min_val then
        some (minimizing_action, fun a => if a = minimizing_action then 1 else 0)
      else if max_val ≤ s.cost_constraint then
        some (maximizing_action, fun a => if a = maximizing_action then 1 else 0)
      else
        let probability_maximizer := (s.cost_constraint - min_val) / (max_val - min_val)
        let pol := fun a =>
          if a = maximizing_action then probability_maximizer
          else if a = minimizing_action then 1 - probability_maximizer else 0
        if sample ≤ probability_maximizer then some (maximizing_action, pol)
        else some (minimizing_action, pol)

/-- Embedding of `CostConstrainedStatistic::greedy_policy`. -/
def CostConstrainedStatistic.greedy_policy (s : CostConstrainedStatistic)
    (kappa_local action_filter_factor_local : ℚ) (sq : Nat → Nat → ℚ)
    (sample : ℚ) : Option (Nat × (Nat → ℚ)) :=
  let ucb_values := s.calculate_ucb_values kappa_local sq
  let feasible_actions := s.filter_feasible_actions ucb_values action_filter_factor_local sq
  s.solve_LP_and_sample sample feasible_actions

/-- Embedding of `CostConstrainedStatistic::get_best_action`:
`greedy_policy(0, action_filter_factor).first`. -/
def CostConstrainedStatistic.get_best_action (s : CostConstrainedStatistic)
    (sq : Nat → Nat → ℚ) (sample : ℚ) : Option Nat :=
  (s.greedy_policy 0 s.action_filter_factor sq sample).map Prod.fst

/-- Embedding of `CostConstrainedStatistic::expected_policy_cost`: the
policy-weighted sum of the stored cost action values. -/
def CostConstrainedStatistic.expected_policy_cost (s : CostConstrainedStatistic)
    (policy : Nat → ℚ) : ℚ :=
  (s.cost_statistic_.ucb_statistics_.map (fun x => policy x.1 * x.2.action_value_)).sum

/-- Embedding of `CostConstrainedStatistic::get_normalized_cost_action_value`. -/
def CostConstrainedStatistic.get_normalized_cost_action_value
    (s : CostConstrainedStatistic) (action : Nat) : ℚ :=
  s.cost_statistic_.get_normalized_ucb_value action

/-- Embedding of `CostConstrainedStatistic::update_from_heuristic`: push
the heuristic statistic's reward and cost values into the two members. -/
def CostConstrainedStatistic.update_from_heuristic (s : CostConstrainedStatistic)
    (heuristic_statistic : CostConstrainedStatistic) : CostConstrainedStatistic :=
  { s with
    reward_statistic_ := s.reward_statistic_.update_from_heuristic_from_backpropagated
      heuristic_statistic.reward_statistic_.value_,
    cost_statistic_ := s.cost_statistic_.update_from_heuristic_from_backpropagated
      heuristic_statistic.cost_statistic_.value_ }

/-- Defaulted lookup on the mean-step-cost map. -/
def atDQ (m : List (Nat × ℚ)) (a : Nat) : ℚ :=
  match m with
  | [] => 0
  | (k, c) :: rest => if k = a then c else atDQ rest a

/-- Insert-or-update on the mean-step-cost map. -/
def updatePairQ (m : List (Nat × ℚ)) (a : Nat) (f : ℚ → ℚ) : List (Nat × ℚ) :=
  match m with
  | [] => [(a, f 0)]
  | (k, c) :: rest =>
    if a = k then (k, f c) :: rest
    else if a < k then (a, f 0) :: (k, c) :: rest
    else (k, c) :: updatePairQ rest a f

/-- Embedding of `CostConstrainedStatistic::update_statistic`.  The node
fields `collected_reward_` and `collected_cost_` (action taken here and
the immediate reward/cost collected on that edge) are passed as explicit
arguments; the source also copies `collected_action_transition_counts_`
into the cost statistic, a field `UctStatistic` never reads. -/
def CostConstrainedStatistic.update_statistic (s : CostConstrainedStatistic)
    (changed_child_statistic : CostConstrainedStatistic)
    (collected_reward collected_cost : Nat × ℚ) : CostConstrainedStatistic :=
  let reward' := s.reward_statistic_.update_statistics_from_backpropagated
    collected_reward.1 collected_reward.2
    changed_child_statistic.reward_statistic_.latest_return_
  let cost' := s.cost_statistic_.update_statistics_from_backpropagated
    collected_cost.1 collected_cost.2
    changed_child_statistic.cost_statistic_.latest_return_
  let n := (atD cost'.ucb_statistics_ collected_cost.1).action_count_
  { s with
    reward_statistic_ := reward',
    cost_statistic_ := cost',
    mean_step_costs_ := updatePairQ s.mean_step_costs_ collected_cost.1
      (fun mean => mean + (collected_cost.2 - mean) / (n : ℚ)) }

/-- Upper clipping limit of the lambda update
(`CostConstrainedStatistic::calculate_next_lambda`). -/
def clipUpperLimit (root_statistic : CostConstrainedStatistic)
    (tau_gradient_clip discount_factor : ℚ) : ℚ :=
  (root_statistic.reward_statistic_.upper_bound - root_statistic.reward_statistic_.lower_bound) /
    (tau_gradient_clip * (1 - discount_factor))

/-- Embedding of `CostConstrainedStatistic::calculate_next_lambda`: a
projected gradient step driven by the root's greedy policy with
exploration constant `0` and filter factor `0`; `none` models the
exception thrown when the greedy pipeline cannot evaluate. -/
def calculate_next_lambda (current_lambda gradient_update_step cost_constraint
    tau_gradient_clip : ℚ) (root_statistic : CostConstrainedStatistic)
    (discount_factor : ℚ) (sq : Nat → Nat → ℚ) (sample : ℚ) : Option ℚ :=
  (root_statistic.greedy_policy 0 0 sq sample).map (fun pr =>
    let normalized_ucb_sample_action :=
      root_statistic.get_normalized_cost_action_value pr.1
    let gradient := normalized_ucb_sample_action - cost_constraint
    let new_lambda := current_lambda + gradient_update_step * gradient
    min (max new_lambda 0) (clipUpperLimit root_statistic tau_gradient_clip discount_factor))

/-- Embedding of
`NodeStatistic<CostConstrainedStatistic>::update_statistic_parameters`,
returning the new value of `parameters.cost_constrained_statistic.LAMBDA`
(unchanged when the root's policy is not ready). -/
def update_statistic_parameters (parameters : MctsParameters)
    (root_statistic : CostConstrainedStatistic) (current_iteration : Nat)
    (sq : Nat → Nat → ℚ) (sample : ℚ) : Option ℚ :=
  if ¬ root_statistic.policy_is_ready then
    some parameters.cost_constrained_statistic.LAMBDA
  else
    calculate_next_lambda
      parameters.cost_constrained_statistic.LAMBDA
      (parameters.cost_constrained_statistic.GRADIENT_UPDATE_STEP /
        ((1 / 10) * (current_iteration : ℚ) + 1))
      parameters.cost_constrained_statistic.COST_CONSTRAINT
      parameters.cost_constrained_statistic.TAU_GRADIENT_CLIP
      root_statistic
      parameters.DISCOUNT_FACTOR
      sq sample

/-- Sum of a policy over the actions recorded in a statistics map (the
source materialises the policy as a map over exactly these keys). -/
def policySum (m : UcbStatistics) (policy : Nat → ℚ) : ℚ :=
  (m.map (fun x => policy x.1)).sum

/-- Decides whether `solve_LP_and_sample` on this feasible set reaches a
branch whose result does not consume the uniform sample (empty set, a
single extremal action, or a non-bracketing constraint). -/
def lpBranchDeterministic (s : CostConstrainedStatistic)
    (feasible_actions : List Nat) : Bool :=
  match feasible_actions with
  | [] => true
  | a0 :: _ =>
    let mami := findMaxMinCost s.costValue (a0, a0) feasible_actions
    (mami.2 == mami.1) || decide (s.cost_constraint ≤ s.costValue mami.2) ||
      decide (s.costValue mami.1 ≤ s.cost_constraint)

/-- Modelled from the spec: `Mcts::search` and `Mcts::returnBestAction`
(the MCTS driver, not under `src/`) finish a planning call by returning
`root.ego_statistic.get_best_action()` (spec section 4.E step 3), whose
uniform draw comes from the single process-wide generator that persists
across planning calls (spec section 5).  The generator is modelled as a
stream of uniform draws together with a cursor that each call advances;
the tree construction is abstracted by handing both calls the same root
statistic (a deterministic environment with fixed budgets). -/
def planning_call (root : CostConstrainedStatistic) (sq : Nat → Nat → ℚ)
    (stream : Nat → ℚ) (cursor : Nat) : Option Nat × Nat :=
  (root.get_best_action sq (stream cursor), cursor + 1)

/-- Modulus of C++ `unsigned int` arithmetic. -/
def uintMod : Nat := 2 ^ 32

/-- Wrapping unsigned subtraction, modelling `x - y` on `unsigned int`. -/
def usub (x y : Nat) : Nat := (x + (uintMod - y % uintMod)) % uintMod

/-- Value of the enumerator `Actions::WAIT`. -/
def Actions.WAIT : Int := 0

/-- Value of the enumerator `Actions::FORWARD`. -/
def Actions.FORWARD : Int := 1

/-- Value of the enumerator `Actions::BACKWARD`. -/
def Actions.BACKWARD : Int := -1

/-- Embedding of `AgentPolicyCrossingState::calculate_action`
(`hypothesis_crossing_state.h`): the difference is computed on
`unsigned int`, so the first comparison is against the wrapped value. -/
def calculate_action (ego_distance desired_gap_dst : Nat) : Int :=
  if usub ego_distance desired_gap_dst > 0 then Actions.FORWARD
  else if usub ego_distance desired_gap_dst = 0 then Actions.WAIT
  else Actions.BACKWARD

/-- Embedding of `AgentPolicyCrossingState::get_probability`: the share
of desired gaps in the configured range whose calculated action equals
`action`; the vector length `second - first + 1` is unsigned arithmetic. -/
def get_probability (desired_gap_range : Nat × Nat) (ego_distance : Nat)
    (action : Int) : ℚ :=
  let sz := (usub desired_gap_range.2 desired_gap_range.1 + 1) % uintMod
  let gap_distances := (List.range sz).map (fun i => i + desired_gap_range.1)
  let action_selected :=
    (gap_distances.filter (fun d => decide (calculate_action ego_distance d = action))).length
  (action_selected : ℚ) / (gap_distances.length : ℚ)

/-- Oracle instantiation for concrete states: every visit count used by
the witnesses is `1`, and the machine value of `sqrt(log 1 / 1)` is
exactly `0` (the oracle's value at other arguments is only ever
multiplied by an exploration constant of `0`). -/
def sqZero : Nat → Nat → ℚ := fun _ _ => 0

/-- Concrete reward statistic: both actions visited once with value `1`. -/
def uctMixedReward : UctStatistic :=
  { value_ := 1, latest_return_ := 1,
    ucb_statistics_ := [(0, ⟨1, 1⟩), (1, ⟨1, 1⟩)],
    total_node_visits_ := 2, upper_bound := 1, lower_bound := 0,
    k_discount_factor := 9 / 10 }

/-- Concrete cost statistic: action `0` has cost `0`, action `1` cost `1`. -/
def uctMixedCost : UctStatistic :=
  { value_ := 1 / 2, latest_return_ := 1 / 2,
    ucb_statistics_ := [(0, ⟨1, 0⟩), (1, ⟨1, 1⟩)],
    total_node_visits_ := 2, upper_bound := 1, lower_bound := 0,
    k_discount_factor := 1 }

/-- Concrete cost-constrained statistic whose feasible costs strictly
bracket the constraint: the LP reaches the stochastic branch with
`p = 1/2`. -/
def statMixed : CostConstrainedStatistic :=
  { reward_statistic_ := uctMixedReward, cost_statistic_ := uctMixedCost,
    unexpanded_actions_ := [], mean_step_costs_ := [(0, 0), (1, 1)],
    lambda := 0, kappa := 0, action_filter_factor := 1, cost_constraint := 1 / 2 }

/-- Variant of `statMixed` with a slack constraint (`C_max = 2` above the
maximal cost), so the LP lands in a deterministic branch. -/
def statSlack : CostConstrainedStatistic :=
  { statMixed with cost_constraint := 2 }

/-- Variant of `statMixed` whose root still has an unexpanded action, so
the lambda adapter skips its update. -/
def statNotReady : CostConstrainedStatistic :=
  { statMixed with unexpanded_actions_ := [2] }

/-- Parameters with a negative initial lambda (the repository's own test
initialises `LAMBDA` to a negative value for these rewards and risks). -/
def paramsNeg : MctsParameters :=
  { DISCOUNT_FACTOR := 9 / 10,
    cost_constrained_statistic :=
      { LAMBDA := -(1 / 10), GRADIENT_UPDATE_STEP := 1 / 10,
        COST_CONSTRAINT := 1 / 2, TAU_GRADIENT_CLIP := 1 } }

/-- Parameters with initial lambda `0`. -/
def paramsStd : MctsParameters :=
  { DISCOUNT_FACTOR := 9 / 10,
    cost_constrained_statistic :=
      { LAMBDA := 0, GRADIENT_UPDATE_STEP := 1 / 10,
        COST_CONSTRAINT := 1 / 2, TAU_GRADIENT_CLIP := 1 } }

/-- Freshly constructed statistic: no expanded action, no visit. -/
def freshUct : UctStatistic :=
  { value_ := 0, latest_return_ := 0, ucb_statistics_ := [],
    total_node_visits_ := 0, upper_bound := 1, lower_bound := 0,
    k_discount_factor := 9 / 10 }

/-- Freshly constructed cost-constrained node statistic (a new leaf). -/
def freshCCS : CostConstrainedStatistic :=
  { reward_statistic_ := freshUct,
    cost_statistic_ := { freshUct with k_discount_factor := 1 },
    unexpanded_actions_ := [0, 1, 2], mean_step_costs_ := [],
    lambda := 0, kappa := 0, action_filter_factor := 1, cost_constraint := 1 / 2 }

/-- Heuristic statistic of a rollout: reward value `5`, cost value `1`. -/
def heurCCS : CostConstrainedStatistic :=
  { freshCCS with
    reward_statistic_ := { freshUct with value_ := 5 },
    cost_statistic_ := { freshUct with value_ := 1, k_discount_factor := 1 } }

/-- Two consecutive draws of the shared generator used by the
counterexamples: `1/4` followed by `3/4`. -/
def stream84 : Nat → ℚ := fun n => if n = 0 then 1 / 4 else 3 / 4

/-- Concrete sorted statistics map with a value tie between keys `1` and
`4`, used to witness the tie-break of `UctStatistic::get_best_action`. -/
def uctSorted : UctStatistic :=
  { value_ := 0, latest_return_ := 0,
    ucb_statistics_ := [(0, ⟨2, 3⟩), (1, ⟨1, 5⟩), (4, ⟨1, 5⟩)],
    total_node_visits_ := 4, upper_bound := 10, lower_bound := 0,
    k_discount_factor := 9 / 10 }

/-! Helper lemmas: concrete evaluations of the pipeline on the states
above (the kernel cannot reduce rational arithmetic, so the evaluations
are carried out by `norm_num`). -/

theorem eval_statMixed_values : statMixed.calculate_ucb_values 0 sqZero = [1, 1] := by
  norm_num [CostConstrainedStatistic.calculate_ucb_values, statMixed, uctMixedReward,
    uctMixedCost, sqZero, UctStatistic.get_normalized_ucb_value, atD, dblMax,
    List.range_succ]

theorem eval_statMixed_feasible1 : statMixed.filter_feasible_actions [1, 1] 1 sqZero = [0, 1] := by
  norm_num [CostConstrainedStatistic.filter_feasible_actions, statMixed, uctMixedReward,
    sqZero, atD, maxElementIdx, dblMax, List.range_succ, List.filter]

theorem eval_statMixed_feasible0 : statMixed.filter_feasible_actions [1, 1] 0 sqZero = [0, 1] := by
  norm_num [CostConstrainedStatistic.filter_feasible_actions, statMixed, uctMixedReward,
    sqZero, atD, maxElementIdx, dblMax, List.range_succ, List.filter]

theorem eval_statMixed_lp14 : (statMixed.solve_LP_and_sample (1 / 4) [0, 1]).map Prod.fst = some 1 := by
  rw [CostConstrainedStatistic.solve_LP_and_sample]
  norm_num [findMaxMinCost, CostConstrainedStatistic.costValue, statMixed, uctMixedCost, atD]

theorem eval_statMixed_lp34 : (statMixed.solve_LP_and_sample (3 / 4) [0, 1]).map Prod.fst = some 0 := by
  rw [CostConstrainedStatistic.solve_LP_and_sample]
  norm_num [findMaxMinCost, CostConstrainedStatistic.costValue, statMixed, uctMixedCost, atD]

theorem eval_statMixed_best14 : statMixed.get_best_action sqZero (1 / 4) = some 1 := by
  rw [CostConstrainedStatistic.get_best_action, CostConstrainedStatistic.greedy_policy]
  rw [show statMixed.action_filter_factor = 1 from rfl]
  rw [eval_statMixed_values, eval_statMixed_feasible1]
  exact eval_statMixed_lp14

theorem eval_statMixed_best34 : statMixed.get_best_action sqZero (3 / 4) = some 0 := by
  rw [CostConstrainedStatistic.get_best_action, CostConstrainedStatistic.greedy_policy]
  rw [show statMixed.action_filter_factor = 1 from rfl]
  rw [eval_statMixed_values, eval_statMixed_feasible1]
  exact eval_statMixed_lp34

theorem eval_statMixed_greedy00 : (statMixed.greedy_policy 0 0 sqZero (1 / 4)).map Prod.fst = some 1 := by
  rw [CostConstrainedStatistic.greedy_policy]
  rw [eval_statMixed_values, eval_statMixed_feasible0]
  exact eval_statMixed_lp14

theorem eval_statSlack_values : statSlack.calculate_ucb_values 0 sqZero = [1, 1] := by
  norm_num [CostConstrainedStatistic.calculate_ucb_values, statSlack, statMixed,
    uctMixedReward, uctMixedCost, sqZero, UctStatistic.get_normalized_ucb_value, atD,
    dblMax, List.range_succ]

theorem eval_statSlack_feasible1 : statSlack.filter_feasible_actions [1, 1] 1 sqZero = [0, 1] := by
  norm_num [CostConstrainedStatistic.filter_feasible_actions, statSlack, statMixed,
    uctMixedReward, sqZero, atD, maxElementIdx, dblMax, List.range_succ, List.filter]

theorem eval_statSlack_branch : lpBranchDeterministic statSlack [0, 1] = true := by
  rw [lpBranchDeterministic]
  norm_num [findMaxMinCost, CostConstrainedStatistic.costValue, statSlack, statMixed,
    uctMixedCost, atD]

theorem eval_statMixed_adapter :
    update_statistic_parameters paramsStd statMixed 3 sqZero (1 / 4) = some (1 / 26) := by
  cases hg : statMixed.greedy_policy 0 0 sqZero (1 / 4) with
  | none =>
    have h := eval_statMixed_greedy00
    rw [hg] at h
    exact absurd h (by simp)
  | some pr =>
    have h1 : pr.1 = 1 := by
      have h := eval_statMixed_greedy00
      rw [hg] at h
      simpa using h
    have hready : statMixed.policy_is_ready = true := rfl
    simp only [update_statistic_parameters, hready, not_true, ite_false,
      calculate_next_lambda, hg, Option.map_some', Option.some.injEq]
    rw [h1]
    norm_num [CostConstrainedStatistic.get_normalized_cost_action_value,
      UctStatistic.get_normalized_ucb_value, statMixed, uctMixedCost, uctMixedReward,
      atD, clipUpperLimit, paramsStd, min_def, max_def]

theorem eval_stream0 : stream84 0 = 1 / 4 := by norm_num [stream84]

theorem eval_stream1 : stream84 1 = 3 / 4 := by norm_num [stream84]

theorem sumCounts_updatePair (m : UcbStatistics) (a : Nat) (f : UcbPair → UcbPair)
    (hf : ∀ p, (f p).action_count_ = p.action_count_ + 1) :
    sumCounts (updatePair m a f) = sumCounts m + 1 := by
  induction m with
  | nil => simp [updatePair, sumCounts, hf]
  | cons hd tl ih =>
    obtain ⟨k, p⟩ := hd
    by_cases h1 : a = k
    · simp only [updatePair, if_pos h1, sumCounts, List.map_cons, List.sum_cons, hf]
      omega
    · by_cases h2 : a < k
      · simp only [updatePair, if_neg h1, if_pos h2, sumCounts, List.map_cons,
          List.sum_cons, hf]
        omega
      · simp only [updatePair, if_neg h1, if_neg h2, sumCounts, List.map_cons,
          List.sum_cons]
        simp only [sumCounts] at ih
        omega

theorem uct_update_statistics_counts (s : UctStatistic) (a : Nat) (imm bp : ℚ) :
    (s.update_statistics_from_backpropagated a imm bp).total_node_visits_ =
      s.total_node_visits_ + 1 ∧
    sumCounts (s.update_statistics_from_backpropagated a imm bp).ucb_statistics_ =
      sumCounts s.ucb_statistics_ + 1 := by
  refine ⟨rfl, ?_⟩
  exact sumCounts_updatePair _ _ _ (fun p => rfl)

/-- C2, counterexample: a freshly created leaf satisfies
`total_node_visits_ = Σ counts` (both are `0`), but after the
backpropagation-phase heuristic initialisation (`update_from_heuristic`)
the reward statistic has `total_node_visits_ = 1` while no action count
was touched, so the claimed equality fails. -/
theorem c2_counterexample :
    ¬ ((freshCCS.update_from_heuristic heurCCS).reward_statistic_.total_node_visits_ =
      sumCounts (freshCCS.update_from_heuristic heurCCS).reward_statistic_.ucb_statistics_) := by
  decide

/-- C2, amended: the backpropagation update `update_statistic` preserves
the defect `total_node_visits_ - Σ counts` of both the reward and the
cost statistic (it increments both sides by one), while the heuristic
initialisation `update_from_heuristic` increments `total_node_visits_`
of both statistics without touching any action count; hence
`total_node_visits_ = Σ counts + (number of heuristic updates received)`
at every node, and the claimed equality holds exactly at nodes that
never received a heuristic update. -/
theorem c2_backprop_preserves_count_defect (s child : CostConstrainedStatistic)
    (cr cc : Nat × ℚ) (hr hc : Nat)
    (h1 : s.reward_statistic_.total_node_visits_ =
      sumCounts s.reward_statistic_.ucb_statistics_ + hr)
    (h2 : s.cost_statistic_.total_node_visits_ =
      sumCounts s.cost_statistic_.ucb_statistics_ + hc) :
    ((s.update_statistic child cr cc).reward_statistic_.total_node_visits_ =
      sumCounts (s.update_statistic child cr cc).reward_statistic_.ucb_statistics_ + hr) ∧
    ((s.update_statistic child cr cc).cost_statistic_.total_node_visits_ =
      sumCounts (s.update_statistic child cr cc).cost_statistic_.ucb_statistics_ + hc) ∧
    ((s.update_from_heuristic child).reward_statistic_.total_node_visits_ =
      sumCounts (s.update_from_heuristic child).reward_statistic_.ucb_statistics_ + (hr + 1)) ∧
    ((s.update_from_heuristic child).cost_statistic_.total_node_visits_ =
      sumCounts (s.update_from_heuristic child).cost_statistic_.ucb_statistics_ + (hc + 1)) := by
  obtain ⟨hrt, hrc⟩ := uct_update_statistics_counts s.reward_statistic_ cr.1 cr.2
    child.reward_statistic_.latest_return_
  obtain ⟨hct, hcc⟩ := uct_update_statistics_counts s.cost_statistic_ cc.1 cc.2
    child.cost_statistic_.latest_return_
  simp only [CostConstrainedStatistic.update_statistic,
    CostConstrainedStatistic.update_from_heuristic,
    UctStatistic.update_from_heuristic_from_backpropagated]
  refine ⟨?_, ?_, ?_, ?_⟩
  · rw [hrt, hrc, h1]; omega
  · rw [hct, hcc, h2]; omega
  · rw [h1]; omega
  · rw [h2]; omega

/-- Witness for the amended C2 at a concrete node. -/
theorem c2_backprop_preserves_count_defect_witness :
    ((freshCCS.update_statistic heurCCS (0, 1) (0, 1 / 2)).reward_statistic_.total_node_visits_ =
      sumCounts (freshCCS.update_statistic heurCCS (0, 1) (0, 1 / 2)).reward_statistic_.ucb_statistics_ + 0) ∧
    ((freshCCS.update_statistic heurCCS (0, 1) (0, 1 / 2)).cost_statistic_.total_node_visits_ =
      sumCounts (freshCCS.update_statistic heurCCS (0, 1) (0, 1 / 2)).cost_statistic_.ucb_statistics_ + 0) ∧
    ((freshCCS.update_from_heuristic heurCCS).reward_statistic_.total_node_visits_ =
      sumCounts (freshCCS.update_from_heuristic heurCCS).reward_statistic_.ucb_statistics_ + (0 + 1)) ∧
    ((freshCCS.update_from_heuristic heurCCS).cost_statistic_.total_node_visits_ =
      sumCounts (freshCCS.update_from_heuristic heurCCS).cost_statistic_.ucb_statistics_ + (0 + 1)) :=
  c2_backprop_preserves_count_defect freshCCS heurCCS (0, 1) (0, 1 / 2) 0 0
    (by decide) (by decide)

/-- C5: the lambda adapter leaves lambda unchanged when the root still
has unexpanded actions; otherwise the pre-clipping value is
`lambda + (GRADIENT_UPDATE_STEP / (0.1 * iteration + 1)) *
(normalized_cost(a_sel) - C_max)` with `a_sel` the action selected by the
root's greedy policy at exploration constant `0` and filter factor `0`,
and the stored result is that value clipped to `[0, clip_upper_limit]`. -/
theorem c5_lambda_adapter_formula (parameters : MctsParameters)
    (root : CostConstrainedStatistic) (iter : Nat) (sq : Nat → Nat → ℚ) (sample : ℚ) :
    (root.policy_is_ready = false →
      update_statistic_parameters parameters root iter sq sample =
        some parameters.cost_constrained_statistic.LAMBDA) ∧
    (root.policy_is_ready = true → ∀ a : Nat,
      (root.greedy_policy 0 0 sq sample).map Prod.fst = some a →
      update_statistic_parameters parameters root iter sq sample =
        some (min (max (parameters.cost_constrained_statistic.LAMBDA +
            (parameters.cost_constrained_statistic.GRADIENT_UPDATE_STEP /
              ((1 / 10) * (iter : ℚ) + 1)) *
            (root.get_normalized_cost_action_value a -
              parameters.cost_constrained_statistic.COST_CONSTRAINT)) 0)
          (clipUpperLimit root parameters.cost_constrained_statistic.TAU_GRADIENT_CLIP
            parameters.DISCOUNT_FACTOR))) := by
  constructor
  · intro h
    simp [update_statistic_parameters, h]
  · intro h a ha
    cases hg : root.greedy_policy 0 0 sq sample with
    | none => rw [hg] at ha; exact absurd ha (by simp)
    | some pr =>
      rw [hg] at ha
      simp only [Option.map_some'] at ha
      obtain rfl : pr.1 = a := by simpa using ha
      simp [update_statistic_parameters, h, calculate_next_lambda, hg]

/-- Witness for C5 at a concrete root statistic and iteration. -/
theorem c5_lambda_adapter_formula_witness :
    update_statistic_parameters paramsStd statMixed 3 sqZero (1 / 4) =
      some (min (max (paramsStd.cost_constrained_statistic.LAMBDA +
          (paramsStd.cost_constrained_statistic.GRADIENT_UPDATE_STEP /
            ((1 / 10) * ((3 : Nat) : ℚ) + 1)) *
          (statMixed.get_normalized_cost_action_value 1 -
            paramsStd.cost_constrained_statistic.COST_CONSTRAINT)) 0)
        (clipUpperLimit statMixed paramsStd.cost_constrained_statistic.TAU_GRADIENT_CLIP
          paramsStd.DISCOUNT_FACTOR)) :=
  (c5_lambda_adapter_formula paramsStd statMixed 3 sqZero (1 / 4)).2 (by decide) 1
    eval_statMixed_greedy00

/-- C4, counterexample: a run of `update_statistic_parameters` whose root
still has an unexpanded action leaves the stored lambda unchanged, so
with the (test-realistic) negative initial `LAMBDA = -1/10` the stored
lambda after the run lies outside `[0, clip_upper_limit]`. -/
theorem c4_counterexample :
    update_statistic_parameters paramsNeg statNotReady 0 sqZero 0 = some (-(1 / 10)) ∧
    ¬ (0 ≤ (-(1 / 10) : ℚ) ∧ (-(1 / 10) : ℚ) ≤
        clipUpperLimit statNotReady paramsNeg.cost_constrained_statistic.TAU_GRADIENT_CLIP
          paramsNeg.DISCOUNT_FACTOR) := by
  constructor
  · rw [update_statistic_parameters]
    norm_num [CostConstrainedStatistic.policy_is_ready, statNotReady, statMixed, paramsNeg]
  · intro h
    exact absurd h.1 (by norm_num)

/-- C4, amended: whenever the lambda update actually applies (the root's
policy is ready) and the clipping interval is well formed
(`0 ≤ clip_upper_limit`, as for any valid parameterisation with
`REWARD_UPPER_BOUND > REWARD_LOWER_BOUND`, `TAU_GRADIENT_CLIP > 0` and
`DISCOUNT_FACTOR < 1`), the stored lambda after the run lies in
`[0, (REWARD_UPPER_BOUND - REWARD_LOWER_BOUND) /
(TAU_GRADIENT_CLIP * (1 - DISCOUNT_FACTOR))]`; a skipped run leaves
lambda unchanged and guarantees nothing. -/
theorem c4_lambda_clipped_when_applied (parameters : MctsParameters)
    (root : CostConstrainedStatistic) (iter : Nat) (sq : Nat → Nat → ℚ)
    (sample lam' : ℚ)
    (hready : root.policy_is_ready = true)
    (hclip : 0 ≤ clipUpperLimit root parameters.cost_constrained_statistic.TAU_GRADIENT_CLIP
      parameters.DISCOUNT_FACTOR)
    (hres : update_statistic_parameters parameters root iter sq sample = some lam') :
    0 ≤ lam' ∧ lam' ≤ clipUpperLimit root
      parameters.cost_constrained_statistic.TAU_GRADIENT_CLIP parameters.DISCOUNT_FACTOR := by
  have hres' : calculate_next_lambda parameters.cost_constrained_statistic.LAMBDA
      (parameters.cost_constrained_statistic.GRADIENT_UPDATE_STEP /
        ((1 / 10) * (iter : ℚ) + 1))
      parameters.cost_constrained_statistic.COST_CONSTRAINT
      parameters.cost_constrained_statistic.TAU_GRADIENT_CLIP
      root parameters.DISCOUNT_FACTOR sq sample = some lam' := by
    rw [update_statistic_parameters, hready] at hres
    simpa using hres
  rw [calculate_next_lambda] at hres'
  cases hg : root.greedy_policy 0 0 sq sample with
  | none => rw [hg] at hres'; exact absurd hres' (by simp)
  | some pr =>
    rw [hg] at hres'
    simp only [Option.map_some', Option.some.injEq] at hres'
    subst hres'
    constructor
    · exact le_min (le_max_right _ _) hclip
    · exact min_le_right _ _

/-- Witness for the amended C4 at a concrete applied update. -/
theorem c4_lambda_clipped_when_applied_witness :
    0 ≤ (1 / 26 : ℚ) ∧ (1 / 26 : ℚ) ≤ clipUpperLimit statMixed
      paramsStd.cost_constrained_statistic.TAU_GRADIENT_CLIP paramsStd.DISCOUNT_FACTOR :=
  c4_lambda_clipped_when_applied paramsStd statMixed 3 sqZero (1 / 4) (1 / 26)
    rfl (by norm_num [clipUpperLimit, statMixed, uctMixedReward, paramsStd])
    eval_statMixed_adapter

/-- C10: the crossing-state agent policy computes
`ego_distance - desired_gap_dst` on `unsigned int`, so the result is the
wrapped difference, which is `> 0` whenever the two inputs differ and `0`
only when they are equal; `BACKWARD` is therefore unreachable, and
`get_probability` assigns probability `0` to `BACKWARD` for every ego
distance and desired-gap range. -/
theorem c10_backward_unreachable (ego gap : Nat) (range : Nat × Nat)
    (hego : ego < uintMod) (hgap : gap < uintMod) :
    calculate_action ego gap ≠ Actions.BACKWARD ∧
    (ego ≠ gap → calculate_action ego gap = Actions.FORWARD) ∧
    (ego = gap → calculate_action ego gap = Actions.WAIT) ∧
    get_probability range ego Actions.BACKWARD = 0 := by
  have h32 : uintMod = 4294967296 := by norm_num [uintMod]
  have hnb : ∀ d : Nat, calculate_action ego d ≠ Actions.BACKWARD := by
    intro d
    rw [calculate_action]
    by_cases h : usub ego d > 0
    · rw [if_pos h]; decide
    · have h0 : usub ego d = 0 := by omega
      rw [if_neg h, if_pos h0]; decide
  refine ⟨hnb gap, ?_, ?_, ?_⟩
  · intro hne
    have hpos : usub ego gap > 0 := by
      have : usub ego gap ≠ 0 := by
        rw [usub, h32]
        rw [h32] at hego hgap
        omega
      omega
    rw [calculate_action, if_pos hpos]
  · intro heq
    subst heq
    have h0 : usub ego ego = 0 := by
      rw [usub, h32]
      rw [h32] at hego
      omega
    rw [calculate_action, if_neg (by omega), if_pos h0]
  · rw [get_probability]
    have hfil : ∀ (l : List Nat),
        l.filter (fun d => decide (calculate_action ego d = Actions.BACKWARD)) = [] := by
      intro l
      rw [List.filter_eq_nil_iff]
      intro d _
      simpa using hnb d
    rw [hfil]
    simp

/-- Witness for C10 at concrete inputs. -/
theorem c10_backward_unreachable_witness :
    calculate_action 5 3 ≠ Actions.BACKWARD ∧
    (5 ≠ 3 → calculate_action 5 3 = Actions.FORWARD) ∧
    (5 = 3 → calculate_action 5 3 = Actions.WAIT) ∧
    get_probability (1, 4) 5 Actions.BACKWARD = 0 :=
  c10_backward_unreachable 5 3 (1, 4) (by norm_num [uintMod]) (by norm_num [uintMod])

theorem solve_LP_fst_sample_independent (s : CostConstrainedStatistic)
    (feasible : List Nat) (h : lpBranchDeterministic s feasible = true) (s₁ s₂ : ℚ) :
    (s.solve_LP_and_sample s₁ feasible).map Prod.fst =
      (s.solve_LP_and_sample s₂ feasible).map Prod.fst := by
  cases feasible with
  | nil => rfl
  | cons a0 rest =>
    rw [lpBranchDeterministic] at h
    simp only [CostConstrainedStatistic.solve_LP_and_sample]
    by_cases h1 : (findMaxMinCost s.costValue (a0, a0) (a0 :: rest)).2 =
        (findMaxMinCost s.costValue (a0, a0) (a0 :: rest)).1
    · rw [if_pos h1, if_pos h1]
    · rw [if_neg h1, if_neg h1]
      by_cases h2 : s.cost_constraint ≤
          s.costValue (findMaxMinCost s.costValue (a0, a0) (a0 :: rest)).2
      · rw [if_pos h2, if_pos h2]
      · rw [if_neg h2, if_neg h2]
        by_cases h3 : s.costValue (findMaxMinCost s.costValue (a0, a0) (a0 :: rest)).1 ≤
            s.cost_constraint
        · rw [if_pos h3, if_pos h3]
        · exfalso
          simp only [Bool.or_eq_true, beq_iff_eq, decide_eq_true_eq] at h
          rcases h with (h | h) | h
          · exact h1 h
          · exact h2 h
          · exact h3 h

theorem eval_statSlack_branch_pipeline :
    lpBranchDeterministic statSlack (statSlack.filter_feasible_actions
      (statSlack.calculate_ucb_values 0 sqZero) statSlack.action_filter_factor sqZero) = true := by
  rw [eval_statSlack_values, show statSlack.action_filter_factor = 1 from rfl,
    eval_statSlack_feasible1]
  exact eval_statSlack_branch

/-- C3, counterexample: on a fixed statistic state whose feasible costs
strictly bracket the constraint, `get_best_action` reaches the branch of
`solve_LP_and_sample` that draws from the shared generator; with the
consecutive draws `1/4` and `3/4` (both valid uniform samples) two calls
with no intervening update return different actions. -/
theorem c3_counterexample :
    statMixed.get_best_action sqZero (1 / 4) = some 1 ∧
    statMixed.get_best_action sqZero (3 / 4) = some 0 ∧
    statMixed.get_best_action sqZero (1 / 4) ≠ statMixed.get_best_action sqZero (3 / 4) := by
  refine ⟨eval_statMixed_best14, eval_statMixed_best34, ?_⟩
  rw [eval_statMixed_best14, eval_statMixed_best34]
  simp

/-- C3, amended: `get_best_action` is independent of the drawn sample —
hence deterministic and idempotent across consecutive calls — whenever
the LP on the filtered feasible set lands in a branch that does not
sample (a single extremal action, or minimal cost at least `C_max`, or
maximal cost at most `C_max`); when the feasible costs strictly bracket
`C_max` the returned action follows the drawn sample of the shared
generator and consecutive calls may differ. -/
theorem c3_best_action_deterministic_branches (s : CostConstrainedStatistic)
    (sq : Nat → Nat → ℚ) (s₁ s₂ : ℚ)
    (h : lpBranchDeterministic s (s.filter_feasible_actions
      (s.calculate_ucb_values 0 sq) s.action_filter_factor sq) = true) :
    s.get_best_action sq s₁ = s.get_best_action sq s₂ := by
  rw [CostConstrainedStatistic.get_best_action, CostConstrainedStatistic.get_best_action,
    CostConstrainedStatistic.greedy_policy, CostConstrainedStatistic.greedy_policy]
  exact solve_LP_fst_sample_independent s _ h s₁ s₂

/-- Witness for the amended C3 at a concrete deterministic-branch state. -/
theorem c3_best_action_deterministic_branches_witness :
    statSlack.get_best_action sqZero (1 / 4) = statSlack.get_best_action sqZero (3 / 4) :=
  c3_best_action_deterministic_branches statSlack sqZero (1 / 4) (3 / 4)
    eval_statSlack_branch_pipeline

/-- C8, counterexample: two planning calls on the same root statistic
(same seed, budgets and deterministic environment) return different best
actions, because the process-wide generator is not re-seeded between
calls: the second call consumes the next draw of the shared stream and
the sampled LP branch selects the other support action. -/
theorem c8_counterexample :
    (planning_call statMixed sqZero stream84 0).1 = some 1 ∧
    (planning_call statMixed sqZero stream84
      (planning_call statMixed sqZero stream84 0).2).1 = some 0 ∧
    (planning_call statMixed sqZero stream84 0).1 ≠
      (planning_call statMixed sqZero stream84 (planning_call statMixed sqZero stream84 0).2).1 := by
  have h0 : (planning_call statMixed sqZero stream84 0).1 = some 1 := by
    rw [planning_call, eval_stream0]
    exact eval_statMixed_best14
  have hc : (planning_call statMixed sqZero stream84 0).2 = 1 := rfl
  have h1 : (planning_call statMixed sqZero stream84
      (planning_call statMixed sqZero stream84 0).2).1 = some 0 := by
    rw [hc, planning_call, eval_stream1]
    exact eval_statMixed_best34
  refine ⟨h0, h1, ?_⟩
  rw [h0, h1]
  simp

/-- C8, amended: two planning calls on the same root statistic return the
same best action whenever the root's LP lands in a deterministic branch
(or, equivalently, if the shared generator were re-seeded between calls);
in general the generator advances across calls and the sampled branch
makes the reported actions differ. -/
theorem c8_planning_deterministic_branches (root : CostConstrainedStatistic)
    (sq : Nat → Nat → ℚ) (stream : Nat → ℚ) (c₁ c₂ : Nat)
    (h : lpBranchDeterministic root (root.filter_feasible_actions
      (root.calculate_ucb_values 0 sq) root.action_filter_factor sq) = true) :
    (planning_call root sq stream c₁).1 = (planning_call root sq stream c₂).1 := by
  show root.get_best_action sq (stream c₁) = root.get_best_action sq (stream c₂)
  rw [CostConstrainedStatistic.get_best_action, CostConstrainedStatistic.get_best_action,
    CostConstrainedStatistic.greedy_policy, CostConstrainedStatistic.greedy_policy]
  exact solve_LP_fst_sample_independent root _ h _ _

/-- Witness for the amended C8 at a concrete deterministic-branch root. -/
theorem c8_planning_deterministic_branches_witness :
    (planning_call statSlack sqZero stream84 0).1 = (planning_call statSlack sqZero stream84 1).1 :=
  c8_planning_deterministic_branches statSlack sqZero stream84 0 1
    eval_statSlack_branch_pipeline

theorem maxFold_spec (values : List ℚ) (l : List Nat) : ∀ b : Nat,
    ((l.foldl (fun best i => if values.getD i 0 > values.getD best 0 then i else best) b) = b ∨
      (l.foldl (fun best i => if values.getD i 0 > values.getD best 0 then i else best) b) ∈ l) ∧
    values.getD b 0 ≤
      values.getD (l.foldl (fun best i => if values.getD i 0 > values.getD best 0 then i else best) b) 0 ∧
    (∀ i ∈ l, values.getD i 0 ≤
      values.getD (l.foldl (fun best i => if values.getD i 0 > values.getD best 0 then i else best) b) 0) := by
  induction l with
  | nil => intro b; simp
  | cons hd tl ih =>
    intro b
    simp only [List.foldl_cons]
    by_cases h : values.getD hd 0 > values.getD b 0
    · rw [if_pos h]
      obtain ⟨h1, h2, h3⟩ := ih hd
      refine ⟨?_, le_trans (le_of_lt h) h2, ?_⟩
      · rcases h1 with h1 | h1
        · exact Or.inr (by rw [h1]; exact List.mem_cons_self hd tl)
        · exact Or.inr (List.mem_cons_of_mem _ h1)
      · intro i hi
        rcases List.mem_cons.mp hi with rfl | hi
        · exact h2
        · exact h3 i hi
    · rw [if_neg h]
      obtain ⟨h1, h2, h3⟩ := ih b
      refine ⟨?_, h2, ?_⟩
      · rcases h1 with h1 | h1
        · exact Or.inl h1
        · exact Or.inr (List.mem_cons_of_mem _ h1)
      · intro i hi
        rcases List.mem_cons.mp hi with rfl | hi
        · exact le_trans (not_lt.mp h) h2
        · exact h3 i hi

theorem maxElementIdx_lt (values : List ℚ) (h : values ≠ []) :
    maxElementIdx values < values.length := by
  obtain ⟨h1, -, -⟩ := maxFold_spec values (List.range values.length) 0
  rw [maxElementIdx]
  rcases h1 with h1 | h1
  · rw [h1]
    exact List.length_pos.mpr h
  · exact List.mem_range.mp h1

theorem maxElementIdx_max (values : List ℚ) :
    ∀ i < values.length, values.getD i 0 ≤ values.getD (maxElementIdx values) 0 := by
  intro i hi
  obtain ⟨-, -, h3⟩ := maxFold_spec values (List.range values.length) 0
  exact h3 i (List.mem_range.mpr hi)

theorem dblMax_nonneg : 0 ≤ dblMax := by norm_num [dblMax]

/-- C7: for every statistic state with at least one expanded action, any
nonnegative filter factor, and any machine evaluation of
`sqrt(log n / n)` (which is nonnegative for `n ≥ 1`), the feasibility
filter keeps the ucb-maximizing action — in particular its output is
non-empty, so the fallback case of an empty feasible set is never
reached (the greedy selection then reduces to that argmax when it is the
only survivor). -/
theorem c7_filter_contains_argmax (s : CostConstrainedStatistic) (kappa_local ff : ℚ)
    (sq : Nat → Nat → ℚ)
    (hne : s.reward_statistic_.ucb_statistics_ ≠ [])
    (hff : 0 ≤ ff)
    (hsq : ∀ n : Nat, 1 ≤ n → 0 ≤ sq n n) :
    maxElementIdx (s.calculate_ucb_values kappa_local sq) ∈
      s.filter_feasible_actions (s.calculate_ucb_values kappa_local sq) ff sq ∧
    s.filter_feasible_actions (s.calculate_ucb_values kappa_local sq) ff sq ≠ [] ∧
    (∀ i < (s.calculate_ucb_values kappa_local sq).length,
      (s.calculate_ucb_values kappa_local sq).getD i 0 ≤
        (s.calculate_ucb_values kappa_local sq).getD
          (maxElementIdx (s.calculate_ucb_values kappa_local sq)) 0) := by
  have hlen : (s.calculate_ucb_values kappa_local sq).length =
      s.reward_statistic_.ucb_statistics_.length := by
    simp [CostConstrainedStatistic.calculate_ucb_values]
  have hvne : s.calculate_ucb_values kappa_local sq ≠ [] := by
    intro hcon
    apply hne
    have := hlen
    rw [hcon] at this
    simpa [List.eq_nil_of_length_eq_zero] using this.symm
  have hmem : maxElementIdx (s.calculate_ucb_values kappa_local sq) ∈
      s.filter_feasible_actions (s.calculate_ucb_values kappa_local sq) ff sq := by
    simp only [CostConstrainedStatistic.filter_feasible_actions, List.mem_filter,
      List.mem_range]
    refine ⟨maxElementIdx_lt _ hvne, ?_⟩
    rw [sub_self, abs_zero, decide_eq_true_eq]
    have hrel : (0 : ℚ) ≤
        (if (atD s.reward_statistic_.ucb_statistics_
              (maxElementIdx (s.calculate_ucb_values kappa_local sq))).action_count_ = 0
          then dblMax
          else sq (atD s.reward_statistic_.ucb_statistics_
              (maxElementIdx (s.calculate_ucb_values kappa_local sq))).action_count_
              (atD s.reward_statistic_.ucb_statistics_
              (maxElementIdx (s.calculate_ucb_values kappa_local sq))).action_count_ +
            (if (atD s.reward_statistic_.ucb_statistics_
                  (maxElementIdx (s.calculate_ucb_values kappa_local sq))).action_count_ = 0
              then dblMax
              else sq (atD s.reward_statistic_.ucb_statistics_
                  (maxElementIdx (s.calculate_ucb_values kappa_local sq))).action_count_
                  (atD s.reward_statistic_.ucb_statistics_
                  (maxElementIdx (s.calculate_ucb_values kappa_local sq))).action_count_)) := by
      by_cases hc : (atD s.reward_statistic_.ucb_statistics_
          (maxElementIdx (s.calculate_ucb_values kappa_local sq))).action_count_ = 0
      · rw [if_pos hc]
        exact dblMax_nonneg
      · rw [if_neg hc]
        have h1 : 0 ≤ sq (atD s.reward_statistic_.ucb_statistics_
            (maxElementIdx (s.calculate_ucb_values kappa_local sq))).action_count_
            (atD s.reward_statistic_.ucb_statistics_
            (maxElementIdx (s.calculate_ucb_values kappa_local sq))).action_count_ :=
          hsq _ (Nat.one_le_iff_ne_zero.mpr hc)
        rw [if_neg hc]
        exact add_nonneg h1 h1
    exact mul_nonneg hff hrel
  exact ⟨hmem, fun hcon => by rw [hcon] at hmem; exact absurd hmem (List.not_mem_nil _),
    maxElementIdx_max _⟩

/-- Witness for C7 at a concrete state. -/
theorem c7_filter_contains_argmax_witness :
    maxElementIdx (statMixed.calculate_ucb_values 0 sqZero) ∈
      statMixed.filter_feasible_actions (statMixed.calculate_ucb_values 0 sqZero) 1 sqZero ∧
    statMixed.filter_feasible_actions (statMixed.calculate_ucb_values 0 sqZero) 1 sqZero ≠ [] ∧
    (∀ i < (statMixed.calculate_ucb_values 0 sqZero).length,
      (statMixed.calculate_ucb_values 0 sqZero).getD i 0 ≤
        (statMixed.calculate_ucb_values 0 sqZero).getD
          (maxElementIdx (statMixed.calculate_ucb_values 0 sqZero)) 0) :=
  c7_filter_contains_argmax statMixed 0 1 sqZero (by decide) (by norm_num)
    (fun n _ => le_refl 0)

theorem getBestLoop_spec (l : List (Nat × UcbPair)) : ∀ (b : Nat) (t : ℚ),
    List.Pairwise (fun x y => x.1 < y.1) l → (∀ x ∈ l, b < x.1) →
    t ≤ (getBestLoop (b, t) l).2 ∧
    (((getBestLoop (b, t) l).1 = b ∧ (getBestLoop (b, t) l).2 = t) ∨
      (t < (getBestLoop (b, t) l).2 ∧ ∃ p, ((getBestLoop (b, t) l).1, p) ∈ l ∧
        p.action_value_ = (getBestLoop (b, t) l).2)) ∧
    (∀ x ∈ l, x.2.action_value_ ≤ (getBestLoop (b, t) l).2) ∧
    (∀ x ∈ l, x.2.action_value_ = (getBestLoop (b, t) l).2 → (getBestLoop (b, t) l).1 ≤ x.1) := by
  induction l with
  | nil =>
    intro b t _ _
    simp [getBestLoop]
  | cons hd tl ih =>
    intro b t hpw hb
    obtain ⟨hhd, htl⟩ := List.pairwise_cons.mp hpw
    obtain ⟨a, p⟩ := hd
    have hba : b < a := hb (a, p) (List.mem_cons_self _ _)
    simp only [getBestLoop]
    by_cases h : p.action_value_ > t
    · rw [if_pos h]
      obtain ⟨ih1, ih2, ih3, ih4⟩ := ih a p.action_value_ htl hhd
      refine ⟨le_trans (le_of_lt h) ih1, ?_, ?_, ?_⟩
      · right
        refine ⟨lt_of_lt_of_le h ih1, ?_⟩
        rcases ih2 with ⟨he1, he2⟩ | ⟨-, p', hp', hv⟩
        · exact ⟨p, by rw [he1]; exact List.mem_cons_self _ _, by rw [he2]⟩
        · exact ⟨p', List.mem_cons_of_mem _ hp', hv⟩
      · intro x hx
        rcases List.mem_cons.mp hx with rfl | hx
        · exact ih1
        · exact ih3 x hx
      · intro x hx hval
        rcases List.mem_cons.mp hx with rfl | hx
        · rcases ih2 with ⟨he1, -⟩ | ⟨hlt, -, -, -⟩
          · rw [he1]
          · exact absurd hval (ne_of_lt hlt)
        · exact ih4 x hx hval
    · rw [if_neg h]
      have hple : p.action_value_ ≤ t := not_lt.mp h
      obtain ⟨ih1, ih2, ih3, ih4⟩ :=
        ih b t htl (fun x hx => hb x (List.mem_cons_of_mem _ hx))
      refine ⟨ih1, ?_, ?_, ?_⟩
      · rcases ih2 with he | ⟨hlt, p', hp', hv⟩
        · exact Or.inl he
        · exact Or.inr ⟨hlt, p', List.mem_cons_of_mem _ hp', hv⟩
      · intro x hx
        rcases List.mem_cons.mp hx with rfl | hx
        · exact le_trans hple ih1
        · exact ih3 x hx
      · intro x hx hval
        rcases List.mem_cons.mp hx with rfl | hx
        · rcases ih2 with ⟨he1, -⟩ | ⟨hlt, -, -, -⟩
          · rw [he1]; exact le_of_lt hba
          · exact absurd (lt_of_lt_of_le hlt (hval ▸ hple)) (lt_irrefl _)
        · exact ih4 x hx hval

/-- C9: `UctStatistic::get_best_action` dereferences the begin iterator
of `ucb_statistics_`, so the embedding returns `none` exactly on an
empty map; on a non-empty (key-sorted, as `std::map` maintains) map it
returns an expanded action of maximal stored action value, keeping the
lowest action index on ties. -/
theorem c9_get_best_action_spec :
    (∀ s : UctStatistic, s.ucb_statistics_ = [] → s.get_best_action = none) ∧
    (∀ s : UctStatistic, List.Pairwise (fun x y => x.1 < y.1) s.ucb_statistics_ →
      s.ucb_statistics_ ≠ [] →
      ∃ b pb, s.get_best_action = some b ∧ (b, pb) ∈ s.ucb_statistics_ ∧
        (∀ x ∈ s.ucb_statistics_, x.2.action_value_ ≤ pb.action_value_) ∧
        (∀ x ∈ s.ucb_statistics_, x.2.action_value_ = pb.action_value_ → b ≤ x.1)) := by
  constructor
  · intro s h
    simp [UctStatistic.get_best_action, h]
  · intro s hpw hne
    rcases hm : s.ucb_statistics_ with _ | ⟨⟨k0, p0⟩, rest⟩
    · exact absurd hm hne
    · rw [hm] at hpw
      obtain ⟨hk0, hrest⟩ := List.pairwise_cons.mp hpw
      have hred : s.get_best_action =
          some (getBestLoop (k0, p0.action_value_) ((k0, p0) :: rest)).1 := by
        simp [UctStatistic.get_best_action, hm]
      have hstep : getBestLoop (k0, p0.action_value_) ((k0, p0) :: rest) =
          getBestLoop (k0, p0.action_value_) rest := by
        simp [getBestLoop]
      rw [hstep] at hred
      obtain ⟨l1, l2, l3, l4⟩ := getBestLoop_spec rest k0 p0.action_value_ hrest hk0
      rcases l2 with ⟨he1, he2⟩ | ⟨hlt, p', hp', hv⟩
      · refine ⟨k0, p0, by rw [hred, he1], List.mem_cons_self _ _, ?_, ?_⟩
        · intro x hx
          rcases List.mem_cons.mp hx with rfl | hx
          · exact le_refl _
          · exact le_trans (l3 x hx) (le_of_eq he2)
        · intro x hx _
          rcases List.mem_cons.mp hx with rfl | hx
          · exact le_refl _
          · exact le_of_lt (hk0 x hx)
      · refine ⟨(getBestLoop (k0, p0.action_value_) rest).1, p', hred,
          List.mem_cons_of_mem _ hp', ?_, ?_⟩
        · intro x hx
          rcases List.mem_cons.mp hx with rfl | hx
          · exact le_trans (le_of_lt hlt) (le_of_eq hv.symm)
          · exact le_trans (l3 x hx) (le_of_eq hv.symm)
        · intro x hx hval
          rcases List.mem_cons.mp hx with rfl | hx
          · exact absurd (hval.trans hv) (ne_of_lt hlt)
          · exact l4 x hx (hval.trans hv)

/-- Witness for C9 at a concrete sorted statistic with a value tie. -/
theorem c9_get_best_action_spec_witness :
    ∃ b pb, uctSorted.get_best_action = some b ∧ (b, pb) ∈ uctSorted.ucb_statistics_ ∧
      (∀ x ∈ uctSorted.ucb_statistics_, x.2.action_value_ ≤ pb.action_value_) ∧
      (∀ x ∈ uctSorted.ucb_statistics_, x.2.action_value_ = pb.action_value_ → b ≤ x.1) :=
  c9_get_best_action_spec.2 uctSorted
    (by norm_num [uctSorted, List.pairwise_cons]) (List.cons_ne_nil _ _)

theorem findMaxMinCost_spec (cost : Nat → ℚ) (l : List Nat) : ∀ ma mi : Nat,
    cost mi ≤ cost ma → (ma = mi ∨ cost mi < cost ma) →
    ((findMaxMinCost cost (ma, mi) l).1 = ma ∨ (findMaxMinCost cost (ma, mi) l).1 ∈ l) ∧
    ((findMaxMinCost cost (ma, mi) l).2 = mi ∨ (findMaxMinCost cost (ma, mi) l).2 ∈ l) ∧
    cost ma ≤ cost (findMaxMinCost cost (ma, mi) l).1 ∧
    cost (findMaxMinCost cost (ma, mi) l).2 ≤ cost mi ∧
    (∀ a ∈ l, cost a ≤ cost (findMaxMinCost cost (ma, mi) l).1) ∧
    (∀ a ∈ l, cost (findMaxMinCost cost (ma, mi) l).2 ≤ cost a) ∧
    ((findMaxMinCost cost (ma, mi) l).1 = (findMaxMinCost cost (ma, mi) l).2 ∨
      cost (findMaxMinCost cost (ma, mi) l).2 < cost (findMaxMinCost cost (ma, mi) l).1) := by
  induction l with
  | nil =>
    intro ma mi h1 h2
    refine ⟨Or.inl rfl, Or.inl rfl, le_refl _, le_refl _, by simp, by simp, ?_⟩
    rcases h2 with h2 | h2
    · exact Or.inl h2
    · exact Or.inr h2
  | cons a tl ih =>
    intro ma mi h1 h2
    simp only [findMaxMinCost]
    by_cases hgt : cost a > cost ma
    · rw [if_pos hgt]
      have hle' : cost mi ≤ cost a := le_trans h1 (le_of_lt hgt)
      obtain ⟨i1, i2, i3, i4, i5, i6, i7⟩ :=
        ih a mi hle' (Or.inr (lt_of_le_of_lt h1 hgt))
      refine ⟨?_, ?_, le_trans (le_of_lt hgt) i3, i4, ?_, ?_, i7⟩
      · rcases i1 with i1 | i1
        · exact Or.inr (by rw [i1]; exact List.mem_cons_self _ _)
        · exact Or.inr (List.mem_cons_of_mem _ i1)
      · rcases i2 with i2 | i2
        · exact Or.inl i2
        · exact Or.inr (List.mem_cons_of_mem _ i2)
      · intro b hb
        rcases List.mem_cons.mp hb with rfl | hb
        · exact i3
        · exact i5 b hb
      · intro b hb
        rcases List.mem_cons.mp hb with rfl | hb
        · exact le_trans i4 hle'
        · exact i6 b hb
    · rw [if_neg hgt]
      by_cases hlt : cost a < cost mi
      · rw [if_pos hlt]
        have hle' : cost a ≤ cost ma := le_trans (le_of_lt hlt) h1
        obtain ⟨i1, i2, i3, i4, i5, i6, i7⟩ :=
          ih ma a hle' (Or.inr (lt_of_lt_of_le hlt h1))
        refine ⟨?_, ?_, i3, le_trans i4 (le_of_lt hlt), ?_, ?_, i7⟩
        · rcases i1 with i1 | i1
          · exact Or.inl i1
          · exact Or.inr (List.mem_cons_of_mem _ i1)
        · rcases i2 with i2 | i2
          · exact Or.inr (by rw [i2]; exact List.mem_cons_self _ _)
          · exact Or.inr (List.mem_cons_of_mem _ i2)
        · intro b hb
          rcases List.mem_cons.mp hb with rfl | hb
          · exact le_trans hle' i3
          · exact i5 b hb
        · intro b hb
          rcases List.mem_cons.mp hb with rfl | hb
          · exact i4
          · exact i6 b hb
      · rw [if_neg hlt]
        obtain ⟨i1, i2, i3, i4, i5, i6, i7⟩ := ih ma mi h1 h2
        refine ⟨?_, ?_, i3, i4, ?_, ?_, i7⟩
        · rcases i1 with i1 | i1
          · exact Or.inl i1
          · exact Or.inr (List.mem_cons_of_mem _ i1)
        · rcases i2 with i2 | i2
          · exact Or.inl i2
          · exact Or.inr (List.mem_cons_of_mem _ i2)
        · intro b hb
          rcases List.mem_cons.mp hb with rfl | hb
          · exact le_trans (not_lt.mp hgt) i3
          · exact i5 b hb
        · intro b hb
          rcases List.mem_cons.mp hb with rfl | hb
          · exact le_trans i4 (not_lt.mp hlt)
          · exact i6 b hb

theorem sumMap_zero (m : UcbStatistics) (f : Nat × UcbPair → ℚ)
    (h : ∀ x ∈ m, f x = 0) : (m.map f).sum = 0 := by
  induction m with
  | nil => simp
  | cons hd tl ih =>
    simp only [List.map_cons, List.sum_cons]
    rw [h hd (List.mem_cons_self _ _), ih (fun x hx => h x (List.mem_cons_of_mem _ hx))]
    ring

theorem sumMap_single (f : Nat × UcbPair → ℚ) (i : Nat) :
    ∀ m : UcbStatistics, (m.map Prod.fst).Nodup → i ∈ m.map Prod.fst →
    (∀ x ∈ m, x.1 ≠ i → f x = 0) → (m.map f).sum = f (i, atD m i) := by
  intro m
  induction m with
  | nil => intro _ hi _; simp at hi
  | cons hd tl ih =>
    intro hnd hi h0
    obtain ⟨k, p⟩ := hd
    have hk_not : k ∉ tl.map Prod.fst := (List.nodup_cons.mp (by simpa using hnd)).1
    have hnd' : (tl.map Prod.fst).Nodup := (List.nodup_cons.mp (by simpa using hnd)).2
    simp only [List.map_cons, List.sum_cons]
    by_cases hik : k = i
    · subst hik
      have hat : atD ((k, p) :: tl) k = p := by simp [atD]
      rw [hat]
      have hz : (tl.map f).sum = 0 := by
        apply sumMap_zero
        intro x hx
        refine h0 x (List.mem_cons_of_mem _ hx) ?_
        intro he
        exact hk_not (he ▸ List.mem_map_of_mem Prod.fst hx)
      rw [hz, add_zero]
    · have hfk : f (k, p) = 0 := h0 (k, p) (List.mem_cons_self _ _) hik
      have hi' : i ∈ tl.map Prod.fst := by
        rcases (by simpa using hi : i = k ∨ i ∈ tl.map Prod.fst) with rfl | h
        · exact absurd rfl hik
        · exact h
      have hat : atD ((k, p) :: tl) i = atD tl i := by simp [atD, hik]
      rw [hfk, hat, zero_add]
      exact ih hnd' hi' (fun x hx => h0 x (List.mem_cons_of_mem _ hx))

theorem sumMap_pair (f : Nat × UcbPair → ℚ) (i j : Nat) (hij : i ≠ j) :
    ∀ m : UcbStatistics, (m.map Prod.fst).Nodup → i ∈ m.map Prod.fst →
    j ∈ m.map Prod.fst → (∀ x ∈ m, x.1 ≠ i → x.1 ≠ j → f x = 0) →
    (m.map f).sum = f (i, atD m i) + f (j, atD m j) := by
  intro m
  induction m with
  | nil => intro _ hi _ _; simp at hi
  | cons hd tl ih =>
    intro hnd hi hj h0
    obtain ⟨k, p⟩ := hd
    have hk_not : k ∉ tl.map Prod.fst := (List.nodup_cons.mp (by simpa using hnd)).1
    have hnd' : (tl.map Prod.fst).Nodup := (List.nodup_cons.mp (by simpa using hnd)).2
    simp only [List.map_cons, List.sum_cons]
    by_cases hik : k = i
    · subst hik
      have hatk : atD ((k, p) :: tl) k = p := by simp [atD]
      have hj' : j ∈ tl.map Prod.fst := by
        rcases (by simpa using hj : j = k ∨ j ∈ tl.map Prod.fst) with rfl | h
        · exact absurd rfl (Ne.symm hij)
        · exact h
      have hkj : k ≠ j := hij
      have hatj : atD ((k, p) :: tl) j = atD tl j := by simp [atD, hkj]
      rw [hatk, hatj]
      have hrest : (tl.map f).sum = f (j, atD tl j) := by
        apply sumMap_single f j tl hnd' hj'
        intro x hx hxj
        refine h0 x (List.mem_cons_of_mem _ hx) ?_ hxj
        intro he
        exact hk_not (he ▸ List.mem_map_of_mem Prod.fst hx)
      rw [hrest]
    · by_cases hjk : k = j
      · subst hjk
        have hatk : atD ((k, p) :: tl) k = p := by simp [atD]
        have hi' : i ∈ tl.map Prod.fst := by
          rcases (by simpa using hi : i = k ∨ i ∈ tl.map Prod.fst) with rfl | h
          · exact absurd rfl hik
          · exact h
        have hati : atD ((k, p) :: tl) i = atD tl i := by simp [atD, hik]
        rw [hatk, hati]
        have hrest : (tl.map f).sum = f (i, atD tl i) := by
          apply sumMap_single f i tl hnd' hi'
          intro x hx hxi
          refine h0 x (List.mem_cons_of_mem _ hx) hxi ?_
          intro he
          exact hk_not (he ▸ List.mem_map_of_mem Prod.fst hx)
        rw [hrest]
        ring
      · have hfk : f (k, p) = 0 := h0 (k, p) (List.mem_cons_self _ _) hik hjk
        have hi' : i ∈ tl.map Prod.fst := by
          rcases (by simpa using hi : i = k ∨ i ∈ tl.map Prod.fst) with rfl | h
          · exact absurd rfl hik
          · exact h
        have hj' : j ∈ tl.map Prod.fst := by
          rcases (by simpa using hj : j = k ∨ j ∈ tl.map Prod.fst) with rfl | h
          · exact absurd rfl hjk
          · exact h
        have hati : atD ((k, p) :: tl) i = atD tl i := by simp [atD, hik]
        have hatj : atD ((k, p) :: tl) j = atD tl j := by simp [atD, hjk]
        rw [hfk, hati, hatj, zero_add]
        exact ih hnd' hi' hj' (fun x hx => h0 x (List.mem_cons_of_mem _ hx))

/-- C1: on a non-empty feasible set (whose actions are recorded in the
cost statistics map, as the filter guarantees for a statistic with
expanded actions), `solve_LP_and_sample` returns a distribution over all
actions that is zero outside the located extremal-cost actions
`a_max`/`a_min`, sums to `1` over the statistics map, and follows the
three-case rule of the source: probability `1` on the single action when
`a_max = a_min`; all mass on `a_min` when `cost[a_min] ≥ C_max`; all
mass on `a_max` when `cost[a_max] ≤ C_max`; otherwise
`p = (C_max − cost[a_min])/(cost[a_max] − cost[a_min])` on `a_max` and
`1 − p` on `a_min`. -/
theorem c1_solve_lp_three_cases (s : CostConstrainedStatistic) (sample : ℚ)
    (a0 : Nat) (rest : List Nat)
    (hsub : ∀ a ∈ a0 :: rest, a ∈ s.cost_statistic_.ucb_statistics_.map Prod.fst)
    (hnd : (s.cost_statistic_.ucb_statistics_.map Prod.fst).Nodup) :
    ∃ selected pol amax amin,
      s.solve_LP_and_sample sample (a0 :: rest) = some (selected, pol) ∧
      amax ∈ a0 :: rest ∧ amin ∈ a0 :: rest ∧
      (∀ a ∈ a0 :: rest, s.costValue a ≤ s.costValue amax) ∧
      (∀ a ∈ a0 :: rest, s.costValue amin ≤ s.costValue a) ∧
      (∀ a : Nat, a ≠ amax → a ≠ amin → pol a = 0) ∧
      policySum s.cost_statistic_.ucb_statistics_ pol = 1 ∧
      (amax = amin → pol amax = 1) ∧
      (amax ≠ amin → s.cost_constraint ≤ s.costValue amin → pol amin = 1 ∧ pol amax = 0) ∧
      (amax ≠ amin → s.costValue amin < s.cost_constraint →
        s.costValue amax ≤ s.cost_constraint → pol amax = 1 ∧ pol amin = 0) ∧
      (amax ≠ amin → s.costValue amin < s.cost_constraint →
        s.cost_constraint < s.costValue amax →
        pol amax = (s.cost_constraint - s.costValue amin) /
          (s.costValue amax - s.costValue amin) ∧ pol amin = 1 - pol amax) := by
  obtain ⟨m1, m2, -, -, m5, m6, -⟩ :=
    findMaxMinCost_spec s.costValue (a0 :: rest) a0 a0 (le_refl _) (Or.inl rfl)
  simp only [CostConstrainedStatistic.solve_LP_and_sample]
  set F := findMaxMinCost s.costValue (a0, a0) (a0 :: rest) with hF
  have hMmem : F.1 ∈ a0 :: rest := by
    rcases m1 with h | h
    · rw [h]; exact List.mem_cons_self _ _
    · exact h
  have hmmem : F.2 ∈ a0 :: rest := by
    rcases m2 with h | h
    · rw [h]; exact List.mem_cons_self _ _
    · exact h
  have hMkey : F.1 ∈ s.cost_statistic_.ucb_statistics_.map Prod.fst := hsub _ hMmem
  have hmkey : F.2 ∈ s.cost_statistic_.ucb_statistics_.map Prod.fst := hsub _ hmmem
  by_cases hc1 : F.2 = F.1
  · refine ⟨F.2, fun a => if a = F.2 then 1 else 0, F.1, F.2, by rw [if_pos hc1],
      hMmem, hmmem, m5, m6, ?_, ?_, ?_, ?_, ?_, ?_⟩
    · intro a _ ham
      exact if_neg ham
    · rw [policySum]
      have := sumMap_single (fun x => if x.1 = F.2 then (1 : ℚ) else 0) F.2
        s.cost_statistic_.ucb_statistics_ hnd hmkey (fun x _ hne => if_neg hne)
      rw [this]; simp
    · intro h
      exact if_pos h
    · intro hne _
      exact absurd hc1.symm hne
    · intro hne _ _
      exact absurd hc1.symm hne
    · intro hne _ _
      exact absurd hc1.symm hne
  · by_cases hc2 : s.cost_constraint ≤ s.costValue F.2
    · refine ⟨F.2, fun a => if a = F.2 then 1 else 0, F.1, F.2,
        by rw [if_neg hc1, if_pos hc2], hMmem, hmmem, m5, m6, ?_, ?_, ?_, ?_, ?_, ?_⟩
      · intro a _ ham
        exact if_neg ham
      · rw [policySum]
        have := sumMap_single (fun x => if x.1 = F.2 then (1 : ℚ) else 0) F.2
          s.cost_statistic_.ucb_statistics_ hnd hmkey (fun x _ hne => if_neg hne)
        rw [this]; simp
      · intro h
        exact absurd h.symm hc1
      · intro hne _
        exact ⟨if_pos rfl, if_neg (fun h => hc1 h.symm)⟩
      · intro _ hlt _
        exact absurd (lt_of_lt_of_le hlt hc2) (lt_irrefl _)
      · intro _ hlt _
        exact absurd (lt_of_lt_of_le hlt hc2) (lt_irrefl _)
    · by_cases hc3 : s.costValue F.1 ≤ s.cost_constraint
      · refine ⟨F.1, fun a => if a = F.1 then 1 else 0, F.1, F.2,
          by rw [if_neg hc1, if_neg hc2, if_pos hc3], hMmem, hmmem, m5, m6,
          ?_, ?_, ?_, ?_, ?_, ?_⟩
        · intro a haM _
          exact if_neg haM
        · rw [policySum]
          have := sumMap_single (fun x => if x.1 = F.1 then (1 : ℚ) else 0) F.1
            s.cost_statistic_.ucb_statistics_ hnd hMkey (fun x _ hne => if_neg hne)
          rw [this]; simp
        · intro h
          exact absurd h.symm hc1
        · intro _ hle
          exact absurd hle hc2
        · intro hne _ _
          exact ⟨if_pos rfl, if_neg hc1⟩
        · intro _ _ hlt
          exact absurd (lt_of_le_of_lt hc3 hlt) (lt_irrefl _)
      · have hMne : F.1 ≠ F.2 := fun h => hc1 h.symm
        by_cases hs : sample ≤ (s.cost_constraint - s.costValue F.2) /
            (s.costValue F.1 - s.costValue F.2)
        · refine ⟨F.1, fun a => if a = F.1 then
              (s.cost_constraint - s.costValue F.2) /
                (s.costValue F.1 - s.costValue F.2)
              else if a = F.2 then 1 - (s.cost_constraint - s.costValue F.2) /
                (s.costValue F.1 - s.costValue F.2) else 0, F.1, F.2,
            by rw [if_neg hc1, if_neg hc2, if_neg hc3, if_pos hs],
            hMmem, hmmem, m5, m6, ?_, ?_, ?_, ?_, ?_, ?_⟩
          · intro a haM ham
            simp only [if_neg haM, if_neg ham]
          · rw [policySum]
            have := sumMap_pair (fun x => if x.1 = F.1 then
                (s.cost_constraint - s.costValue F.2) /
                  (s.costValue F.1 - s.costValue F.2)
                else if x.1 = F.2 then 1 - (s.cost_constraint - s.costValue F.2) /
                  (s.costValue F.1 - s.costValue F.2) else 0) F.1 F.2 hMne
              s.cost_statistic_.ucb_statistics_ hnd hMkey hmkey
              (fun x _ hne1 hne2 => by simp only [if_neg hne1, if_neg hne2])
            rw [this]
            simp only [if_neg hc1, eq_self_iff_true, if_true]
            ring
          · intro h
            exact absurd h.symm hc1
          · intro _ hle
            exact absurd hle hc2
          · intro _ _ hle
            exact absurd hle hc3
          · intro _ _ _
            refine ⟨if_pos rfl, ?_⟩
            simp only [if_neg hc1, eq_self_iff_true, if_true]
        · refine ⟨F.2, fun a => if a = F.1 then
              (s.cost_constraint - s.costValue F.2) /
                (s.costValue F.1 - s.costValue F.2)
              else if a = F.2 then 1 - (s.cost_constraint - s.costValue F.2) /
                (s.costValue F.1 - s.costValue F.2) else 0, F.1, F.2,
            by rw [if_neg hc1, if_neg hc2, if_neg hc3, if_neg hs],
            hMmem, hmmem, m5, m6, ?_, ?_, ?_, ?_, ?_, ?_⟩
          · intro a haM ham
            simp only [if_neg haM, if_neg ham]
          · rw [policySum]
            have := sumMap_pair (fun x => if x.1 = F.1 then
                (s.cost_constraint - s.costValue F.2) /
                  (s.costValue F.1 - s.costValue F.2)
                else if x.1 = F.2 then 1 - (s.cost_constraint - s.costValue F.2) /
                  (s.costValue F.1 - s.costValue F.2) else 0) F.1 F.2 hMne
              s.cost_statistic_.ucb_statistics_ hnd hMkey hmkey
              (fun x _ hne1 hne2 => by simp only [if_neg hne1, if_neg hne2])
            rw [this]
            simp only [if_neg hc1, eq_self_iff_true, if_true]
            ring
          · intro h
            exact absurd h.symm hc1
          · intro _ hle
            exact absurd hle hc2
          · intro _ _ hle
            exact absurd hle hc3
          · intro _ _ _
            refine ⟨if_pos rfl, ?_⟩
            simp only [if_neg hc1, eq_self_iff_true, if_true]

/-- Witness for C1 at a concrete bracketing state. -/
theorem c1_solve_lp_three_cases_witness :
    ∃ selected pol amax amin,
      statMixed.solve_LP_and_sample (1 / 4) [0, 1] = some (selected, pol) ∧
      amax ∈ [0, 1] ∧ amin ∈ [0, 1] ∧
      (∀ a ∈ [0, 1], statMixed.costValue a ≤ statMixed.costValue amax) ∧
      (∀ a ∈ [0, 1], statMixed.costValue amin ≤ statMixed.costValue a) ∧
      (∀ a : Nat, a ≠ amax → a ≠ amin → pol a = 0) ∧
      policySum statMixed.cost_statistic_.ucb_statistics_ pol = 1 ∧
      (amax = amin → pol amax = 1) ∧
      (amax ≠ amin → statMixed.cost_constraint ≤ statMixed.costValue amin →
        pol amin = 1 ∧ pol amax = 0) ∧
      (amax ≠ amin → statMixed.costValue amin < statMixed.cost_constraint →
        statMixed.costValue amax ≤ statMixed.cost_constraint → pol amax = 1 ∧ pol amin = 0) ∧
      (amax ≠ amin → statMixed.costValue amin < statMixed.cost_constraint →
        statMixed.cost_constraint < statMixed.costValue amax →
        pol amax = (statMixed.cost_constraint - statMixed.costValue amin) /
          (statMixed.costValue amax - statMixed.costValue amin) ∧ pol amin = 1 - pol amax) :=
  c1_solve_lp_three_cases statMixed (1 / 4) 0 [1] (by decide) (by decide)

theorem eval_statMixed_findMaxMin :
    findMaxMinCost statMixed.costValue (0, 0) [0, 1] = (1, 0) := by
  norm_num [findMaxMinCost, CostConstrainedStatistic.costValue, statMixed, uctMixedCost, atD]

/-- C6: whenever the located extremal cost estimates of the feasible set
bracket the constraint (`cost[a_min] ≤ C_max ≤ cost[a_max]`), the
distribution returned by `solve_LP_and_sample` has expected cost (as
computed by `expected_policy_cost`) exactly `C_max`. -/
theorem c6_expected_cost_meets_constraint (s : CostConstrainedStatistic) (sample : ℚ)
    (a0 : Nat) (rest : List Nat)
    (hsub : ∀ a ∈ a0 :: rest, a ∈ s.cost_statistic_.ucb_statistics_.map Prod.fst)
    (hnd : (s.cost_statistic_.ucb_statistics_.map Prod.fst).Nodup)
    (hlo : s.costValue (findMaxMinCost s.costValue (a0, a0) (a0 :: rest)).2 ≤
      s.cost_constraint)
    (hhi : s.cost_constraint ≤
      s.costValue (findMaxMinCost s.costValue (a0, a0) (a0 :: rest)).1) :
    ∃ selected pol,
      s.solve_LP_and_sample sample (a0 :: rest) = some (selected, pol) ∧
      s.expected_policy_cost pol = s.cost_constraint := by
  obtain ⟨m1, m2, -, -, -, -, m7⟩ :=
    findMaxMinCost_spec s.costValue (a0 :: rest) a0 a0 (le_refl _) (Or.inl rfl)
  simp only [CostConstrainedStatistic.solve_LP_and_sample]
  set F := findMaxMinCost s.costValue (a0, a0) (a0 :: rest) with hF
  have hMmem : F.1 ∈ a0 :: rest := by
    rcases m1 with h | h
    · rw [h]; exact List.mem_cons_self _ _
    · exact h
  have hmmem : F.2 ∈ a0 :: rest := by
    rcases m2 with h | h
    · rw [h]; exact List.mem_cons_self _ _
    · exact h
  have hMkey : F.1 ∈ s.cost_statistic_.ucb_statistics_.map Prod.fst := hsub _ hMmem
  have hmkey : F.2 ∈ s.cost_statistic_.ucb_statistics_.map Prod.fst := hsub _ hmmem
  by_cases hc1 : F.2 = F.1
  · refine ⟨F.2, fun a => if a = F.2 then 1 else 0, by rw [if_pos hc1], ?_⟩
    rw [CostConstrainedStatistic.expected_policy_cost]
    have hsum := sumMap_single
      (fun x => (if x.1 = F.2 then (1 : ℚ) else 0) * x.2.action_value_) F.2
      s.cost_statistic_.ucb_statistics_ hnd hmkey
      (fun x _ hne => by simp [if_neg hne])
    rw [hsum]
    simp only [eq_self_iff_true, if_true, one_mul]
    have hhi' : s.cost_constraint ≤ s.costValue F.2 := by rw [hc1]; exact hhi
    exact le_antisymm hlo hhi'
  · by_cases hc2 : s.cost_constraint ≤ s.costValue F.2
    · refine ⟨F.2, fun a => if a = F.2 then 1 else 0,
        by rw [if_neg hc1, if_pos hc2], ?_⟩
      rw [CostConstrainedStatistic.expected_policy_cost]
      have hsum := sumMap_single
        (fun x => (if x.1 = F.2 then (1 : ℚ) else 0) * x.2.action_value_) F.2
        s.cost_statistic_.ucb_statistics_ hnd hmkey
        (fun x _ hne => by simp [if_neg hne])
      rw [hsum]
      simp only [eq_self_iff_true, if_true, one_mul]
      exact le_antisymm hlo hc2
    · by_cases hc3 : s.costValue F.1 ≤ s.cost_constraint
      · refine ⟨F.1, fun a => if a = F.1 then 1 else 0,
          by rw [if_neg hc1, if_neg hc2, if_pos hc3], ?_⟩
        rw [CostConstrainedStatistic.expected_policy_cost]
        have hsum := sumMap_single
          (fun x => (if x.1 = F.1 then (1 : ℚ) else 0) * x.2.action_value_) F.1
          s.cost_statistic_.ucb_statistics_ hnd hMkey
          (fun x _ hne => by simp [if_neg hne])
        rw [hsum]
        simp only [eq_self_iff_true, if_true, one_mul]
        exact le_antisymm hc3 hhi
      · have hMne : F.1 ≠ F.2 := fun h => hc1 h.symm
        have hlt : s.costValue F.2 < s.costValue F.1 := by
          rcases m7 with h | h
          · exact absurd h hMne
          · exact h
        refine ⟨if sample ≤ (s.cost_constraint - s.costValue F.2) /
              (s.costValue F.1 - s.costValue F.2) then F.1 else F.2,
            fun a => if a = F.1 then (s.cost_constraint - s.costValue F.2) /
              (s.costValue F.1 - s.costValue F.2)
              else if a = F.2 then 1 - (s.cost_constraint - s.costValue F.2) /
                (s.costValue F.1 - s.costValue F.2) else 0,
            by rw [if_neg hc1, if_neg hc2, if_neg hc3]; split_ifs <;> rfl, ?_⟩
        rw [CostConstrainedStatistic.expected_policy_cost]
        have hsum := sumMap_pair
          (fun x => (if x.1 = F.1 then (s.cost_constraint - s.costValue F.2) /
              (s.costValue F.1 - s.costValue F.2)
              else if x.1 = F.2 then 1 - (s.cost_constraint - s.costValue F.2) /
                (s.costValue F.1 - s.costValue F.2) else 0) * x.2.action_value_)
          F.1 F.2 hMne s.cost_statistic_.ucb_statistics_ hnd hMkey hmkey
          (fun x _ hne1 hne2 => by simp [if_neg hne1, if_neg hne2])
        rw [hsum]
        simp only [if_neg hc1, eq_self_iff_true, if_true]
        have hd : s.costValue F.1 - s.costValue F.2 ≠ 0 :=
          sub_ne_zero.mpr (ne_of_gt hlt)
        show (s.cost_constraint - s.costValue F.2) /
            (s.costValue F.1 - s.costValue F.2) *
            (atD s.cost_statistic_.ucb_statistics_ F.1).action_value_ +
          (1 - (s.cost_constraint - s.costValue F.2) /
            (s.costValue F.1 - s.costValue F.2)) *
            (atD s.cost_statistic_.ucb_statistics_ F.2).action_value_ = s.cost_constraint
        rw [show (atD s.cost_statistic_.ucb_statistics_ F.1).action_value_ =
            s.costValue F.1 from rfl,
          show (atD s.cost_statistic_.ucb_statistics_ F.2).action_value_ =
            s.costValue F.2 from rfl]
        field_simp
        ring

/-- Witness for C6 at a concrete bracketing state. -/
theorem c6_expected_cost_meets_constraint_witness :
    ∃ selected pol,
      statMixed.solve_LP_and_sample (1 / 4) [0, 1] = some (selected, pol) ∧
      statMixed.expected_policy_cost pol = statMixed.cost_constraint :=
  c6_expected_cost_meets_constraint statMixed (1 / 4) 0 [1] (by decide) (by decide)
    (by rw [eval_statMixed_findMaxMin]
        norm_num [CostConstrainedStatistic.costValue, statMixed, uctMixedCost, atD])
    (by rw [eval_statMixed_findMaxMin]
        norm_num [CostConstrainedStatistic.costValue, statMixed, uctMixedCost, atD])

end Mamcts
